import Mathlib

/-!
Verification development for the twirp-swagger-gen schema translator
(internal/swagger/writer.go and internal/swagger/compassiot.go).

The Go source is shallowly embedded as executable Lean definitions.  Go
library functions used by the source (strings, strconv, path, filepath)
are modelled explicitly on ASCII text; the models cover the cases the
translator exercises (non-empty patterns, decimal number literals) and
each model's doc comment states its scope.  The proto declaration tree
produced by the external parser is modelled as an inductive type and the
external collaborators (file loading, template rendering) as function
parameters, mirroring how the Go code treats them as injected
capabilities.
-/

namespace TwirpSwagger

/-! ### Models of Go standard-library string functions -/

/-- The ASCII white-space characters accepted by `unicode.IsSpace`
(model restricted to ASCII, which is all the translator's inputs use). -/
def isGoSpace (c : Char) : Bool :=
  c = ' ' || c = '\t' || c = '\n' || c = '\x0b' || c = '\x0c' || c = '\r'

/-- Trim leading and trailing white space from a character list. -/
def trimChars (l : List Char) : List Char :=
  ((l.dropWhile isGoSpace).reverse.dropWhile isGoSpace).reverse

/-- Model of Go `strings.TrimSpace` (ASCII white space). -/
def goTrimSpace (s : String) : String :=
  ⟨trimChars s.data⟩

/-- Split a character list on a single separator character, keeping empty
segments; model of Go `strings.Split` with a one-character separator
(`strings.Split("", sep)` gives `[""]`, matched by the `[[]]` base case). -/
def splitChar (sep : Char) : List Char → List (List Char)
  | [] => [[]]
  | c :: rest =>
    if c = sep then [] :: splitChar sep rest
    else
      match splitChar sep rest with
      | [] => [[c]]
      | g :: gs => (c :: g) :: gs

/-- Go `strings.Split` with a one-character separator, on strings. -/
def goSplitChar (s : String) (sep : Char) : List String :=
  (splitChar sep s.data).map (fun l => ⟨l⟩)

/-- Does `sub` occur as a contiguous run inside `l`? -/
def listInfix (sub : List Char) : List Char → Bool
  | [] => sub.isEmpty
  | c :: rest => sub.isPrefixOf (c :: rest) || listInfix sub rest

/-- Model of Go `strings.Contains` via list infix search. -/
def goContainsStr (s sub : String) : Bool :=
  listInfix sub.data s.data

/-- Core of `strings.ReplaceAll`: leftmost-first, non-overlapping
replacement.  Structured with explicit fuel so that it is structurally
recursive and evaluates by reduction; each step consumes at least one
character, so fuel `s.length` is exact.  Models only non-empty patterns
(the translator only replaces non-empty literals). -/
def replaceGo (pat rep : List Char) : Nat → List Char → List Char
  | 0, s => s
  | fuel + 1, s =>
    match s with
    | [] => []
    | c :: rest =>
      if !pat.isEmpty && pat.isPrefixOf (c :: rest) then
        rep ++ replaceGo pat rep fuel ((c :: rest).drop pat.length)
      else
        c :: replaceGo pat rep fuel rest

/-- Model of Go `strings.ReplaceAll` for non-empty patterns. -/
def goReplaceAll (s pat rep : String) : String :=
  ⟨replaceGo pat.data rep.data s.data.length s.data⟩

/-- Splitting counterpart of `replaceGo`: the segments of the string
between non-overlapping leftmost occurrences of the pattern.  Used as the
specification-side reading of removing every occurrence of a literal. -/
def splitPat (pat : List Char) : Nat → List Char → List (List Char)
  | 0, s => [s]
  | fuel + 1, s =>
    match s with
    | [] => [[]]
    | c :: rest =>
      if !pat.isEmpty && pat.isPrefixOf (c :: rest) then
        [] :: splitPat pat fuel ((c :: rest).drop pat.length)
      else
        match splitPat pat fuel rest with
        | [] => [[c]]
        | g :: gs => (c :: g) :: gs

/-- Model of Go `strings.ToLower` (ASCII; service names are ASCII). -/
def goToLower (s : String) : String :=
  ⟨s.data.map Char.toLower⟩

/-- Model of Go `strings.TrimSuffix`. -/
def goTrimSuffix (s suffix : String) : String :=
  if suffix.data.isSuffixOf s.data then
    ⟨s.data.take (s.data.length - suffix.data.length)⟩
  else s

/-- Model of Go `filepath.Base` / `path.Base` for slash paths. -/
def goFilepathBase (s : String) : String :=
  if s = "" then "."
  else
    let l := s.data.reverse.dropWhile (· = '/')
    if l = [] then "/" else ⟨(l.takeWhile (· ≠ '/')).reverse⟩

/-- Model of Go `filepath.Ext`: the suffix starting at the final dot of
the final path element, empty when there is none. -/
def goFilepathExt (s : String) : String :=
  let revBase := s.data.reverse.takeWhile (· ≠ '/')
  if revBase.contains '.' then ⟨'.' :: (revBase.takeWhile (· ≠ '.')).reverse⟩
  else ""

/-- Model of Go `filepath.Join` / `path.Join` on two clean segments
(no trailing-slash cleanup, which the translator's inputs do not need). -/
def goPathJoin (a b : String) : String :=
  if a = "" then b else a ++ "/" ++ b

/-- Digits-to-value accumulator shared by the `strconv` models. -/
def digitsToNat (l : List Char) : Nat :=
  l.foldl (fun a c => a * 10 + (c.toNat - 48)) 0

/-- Model of Go `strconv.Atoi`: optional sign, one or more decimal
digits, value within the 64-bit `int` range; anything else is an error
(`none`). -/
def goAtoi (s : String) : Option Int :=
  let p : Int × List Char :=
    match s.data with
    | '+' :: r => (1, r)
    | '-' :: r => (-1, r)
    | r => (1, r)
  if p.2.isEmpty || !p.2.all Char.isDigit then none
  else
    let v : Int := p.1 * (digitsToNat p.2 : Int)
    if v < -(2 ^ 63) ∨ v ≥ 2 ^ 63 then none else some v

/-- The value classes `strconv.ParseFloat` can produce. -/
inductive FloatVal where
  | finite (q : ℚ)
  | inf (neg : Bool)
  | nan
deriving DecidableEq, Repr

/-- Parse an optionally signed decimal mantissa with optional exponent.
The numeric value is kept exact as a rational (built with `mkRat` from
the integer reading of the digits); the model ignores float64 rounding
and range, which no claim depends on. -/
def parseDec (cs : List Char) : Option ℚ :=
  let p : Int × List Char :=
    match cs with
    | '+' :: r => (1, r)
    | '-' :: r => (-1, r)
    | r => (1, r)
  let ip := p.2.takeWhile Char.isDigit
  let cs2 := p.2.drop ip.length
  let q : List Char × List Char :=
    match cs2 with
    | '.' :: r => (r.takeWhile Char.isDigit, r.drop (r.takeWhile Char.isDigit).length)
    | r => ([], r)
  if ip.isEmpty && q.1.isEmpty then none
  else
    let num : Int := p.1 * ((digitsToNat ip * 10 ^ q.1.length + digitsToNat q.1 : Nat) : Int)
    let den : Nat := 10 ^ q.1.length
    match q.2 with
    | [] => some (mkRat num den)
    | e :: r =>
      if e = 'e' || e = 'E' then
        let ep : Bool × List Char :=
          match r with
          | '+' :: rr => (false, rr)
          | '-' :: rr => (true, rr)
          | rr => (false, rr)
        let ed := ep.2.takeWhile Char.isDigit
        if ed.isEmpty || !(ep.2.drop ed.length).isEmpty then none
        else
          let ev := digitsToNat ed
          some (if ep.1 then mkRat num (den * 10 ^ ev)
                else mkRat (num * (10 ^ ev : Nat)) den)
      else none

/-- Model of Go `strconv.ParseFloat`: case-insensitive NaN and signed
infinity special forms, otherwise a decimal literal (hexadecimal float
literals, which the translator never sees, are out of the model). -/
def goParseFloat (s : String) : Option FloatVal :=
  let low := s.data.map Char.toLower
  if low = "nan".data then some .nan
  else
    let p : Bool × List Char :=
      match low with
      | '+' :: r => (false, r)
      | '-' :: r => (true, r)
      | r => (false, r)
    if p.2 = "inf".data ∨ p.2 = "infinity".data then some (.inf p.1)
    else (parseDec s.data).map .finite

/-! ### Proto declaration tree (input of the translator) -/

/-- A documentation comment: its lines, as delivered by the parser. -/
structure ProtoComment where
  lines : List String

/-- The part of a `proto.Field` the translator reads. -/
structure Field where
  name : String
  type : String
  comment : Option ProtoComment

/-- One element of a message body (`proto.Message.Elements`). -/
inductive MsgElement where
  | comment (c : ProtoComment)
  | oneof (elements : List MsgElement)
  | oneofField (f : Field)
  | mapField (keyType : String) (f : Field)
  | normalField (repeated : Bool) (f : Field)
  | unknown

structure ProtoMessage where
  name : String
  comment : Option ProtoComment
  elements : List MsgElement

/-- One element of an enum body. -/
inductive EnumElement where
  | enumField (name : String)
  | unknown

structure ProtoEnum where
  name : String
  comment : Option ProtoComment
  elements : List EnumElement

structure ProtoRPC where
  name : String
  requestType : String
  returnsType : String
  comment : Option ProtoComment

structure ProtoService where
  name : String
  comment : Option ProtoComment
  rpcs : List ProtoRPC

/-- A top-level declaration of a proto file. -/
inductive ProtoElement where
  | pkg (name : String)
  | importDecl (filename : String)
  | message (m : ProtoMessage)
  | enum (e : ProtoEnum)
  | service (s : ProtoService)
  | other

structure ProtoFile where
  elements : List ProtoElement

/-! ### Comment parsing (writer.go `comment` and `description`) -/

/-- The example value carried by a field schema: the dynamic type of the
`interface{}` returned by `comment` (int, float64 or string). -/
inductive GoValue where
  | int (n : Int)
  | float (v : FloatVal)
  | str (s : String)
deriving DecidableEq, Repr

/-- The `result` accumulation loop of `comment`: each line is trimmed
and appended after a space, stopping at the first blank line. -/
def commentJoin : List String → List Char
  | [] => []
  | line :: rest =>
    let t := goTrimSpace line
    if t = "" then []
    else ' ' :: t.data ++ commentJoin rest

/-- The body of writer.go `comment` for a present comment: extract the
title (text before the first semicolon of the first comment paragraph)
and the example (second semicolon-delimited segment parsed as int, then
float, then kept as a string). -/
def commentCore (lines : List String) : String × GoValue :=
  let result := commentJoin lines
  if result.length > 1 then
    match splitChar ';' (result.drop 1) with
    | t :: e :: _ =>
      let ex := trimChars e
      match goAtoi ⟨ex⟩ with
      | some n => (⟨t⟩, .int n)
      | none =>
        match goParseFloat ⟨ex⟩ with
        | some fv => (⟨t⟩, .float fv)
        | none => (⟨t⟩, .str ⟨ex⟩)
    | t :: [] => (⟨t⟩, .str "")
    | [] => ("", .str "")
  else ("", .str "")

/-- writer.go `comment`: a nil comment yields empty title and example. -/
def commentFn : Option ProtoComment → String × GoValue
  | none => ("", .str "")
  | some c => commentCore c.lines

/-- The body of writer.go `description` for a present comment: every
line trimmed, the part after a semicolon dropped per line, all lines
joined with newlines. -/
def descriptionCore (lines : List String) : String :=
  String.intercalate "\n" (lines.map (fun line =>
    let t := goTrimSpace line
    if goContainsStr t ";" then
      match goSplitChar t ';' with
      | [] => t
      | x0 :: _ => x0
    else t))

/-- writer.go `description`: a nil comment yields the empty string. -/
def descriptionFn : Option ProtoComment → String
  | none => ""
  | some c => descriptionCore c.lines

/-! ### Type mapping table -/

/-- One entry of the type mapping table: output type and format. -/
structure TypeAlias where
  type : String
  format : String
deriving DecidableEq, Repr

/-- Modelled from the spec: the Type Mapping Table (the repository's
aliases.go, referenced by writer.go but not present under src/).  Per
spec §4.1 it is a fixed map from IDL scalar and well-known type names to
an output primitive type and format: timestamps map to a string of
date-time, wrapper well-known types map to plain output primitives, and
the scalar entries follow the mapping the predecessor translator
(cmd/twirp-swagger-gen/main.go) applied inline: bool to boolean,
64-bit integers to string, other integers to integer, float and double
to number. -/
def typeAliases : List (String × TypeAlias) :=
  [ ("bool", ⟨"boolean", "boolean"⟩),
    ("int32", ⟨"integer", "int32"⟩),
    ("sint32", ⟨"integer", "int32"⟩),
    ("sfixed32", ⟨"integer", "int32"⟩),
    ("uint32", ⟨"integer", "uint32"⟩),
    ("fixed32", ⟨"integer", "uint32"⟩),
    ("int64", ⟨"string", "int64"⟩),
    ("sint64", ⟨"string", "int64"⟩),
    ("sfixed64", ⟨"string", "int64"⟩),
    ("uint64", ⟨"string", "uint64"⟩),
    ("fixed64", ⟨"string", "uint64"⟩),
    ("float", ⟨"number", "float"⟩),
    ("double", ⟨"number", "double"⟩),
    ("string", ⟨"string", "string"⟩),
    ("bytes", ⟨"string", "byte"⟩),
    ("google.protobuf.Timestamp", ⟨"string", "date-time"⟩),
    ("google.protobuf.StringValue", ⟨"string", "string"⟩),
    ("google.protobuf.BytesValue", ⟨"string", "byte"⟩),
    ("google.protobuf.BoolValue", ⟨"boolean", "boolean"⟩),
    ("google.protobuf.Int32Value", ⟨"integer", "int32"⟩),
    ("google.protobuf.UInt32Value", ⟨"integer", "uint32"⟩),
    ("google.protobuf.Int64Value", ⟨"string", "int64"⟩),
    ("google.protobuf.UInt64Value", ⟨"string", "uint64"⟩),
    ("google.protobuf.FloatValue", ⟨"number", "float"⟩),
    ("google.protobuf.DoubleValue", ⟨"number", "double"⟩) ]

/-- Map lookup `typeAliases[t]`. -/
def lookupAlias (t : String) : Option TypeAlias :=
  typeAliases.lookup t

/-! ### Output schema model (the parts of go-openapi spec.Schema the
translator writes) -/

/-- The `additionalProperties` sub-schema attached for map fields:
`spec.SchemaOrBool` with its `Allows` flag and the inner schema's type. -/
structure APSchema where
  allows : Bool
  type : List String
deriving DecidableEq, Repr

/-- The sub-schema stored under `items` of an array field schema. -/
structure ItemSchema where
  title : String := ""
  description : String := ""
  type : List String := []
  format : String := ""
  ref : String := ""
  additionalProperties : Option APSchema := none
  exampleValue : Option GoValue := none
  extensions : List (String × String) := []
deriving DecidableEq, Repr

/-- A field schema as emitted into a definition's properties. -/
structure Schema where
  title : String := ""
  description : String := ""
  type : List String := []
  format : String := ""
  ref : String := ""
  additionalProperties : Option APSchema := none
  items : Option ItemSchema := none
  exampleValue : Option GoValue := none
  extensions : List (String × String) := []
deriving DecidableEq, Repr

/-- One named output definition (message or enum). -/
structure Definition where
  title : String := ""
  description : String := ""
  type : List String := []
  enum : List String := []
  properties : List (String × Schema) := []
deriving DecidableEq, Repr

/-- Assignment into a Go map modelled on an association list: replace
the binding if the key is present, append it otherwise. -/
def assocSet {α : Type} (k : String) (v : α) : List (String × α) → List (String × α)
  | [] => [(k, v)]
  | (k', v') :: rest => if k' = k then (k, v) :: rest else (k', v') :: assocSet k v rest

/-! ### Field translation (writer.go `Message`'s inner `addField`) -/

/-- The `type`/`format` pair after the alias lookup on the field's own
declared type, before the equal-format suppression. -/
def aliasResolve (t : String) : String × String :=
  match lookupAlias t with
  | some p => (p.type, p.format)
  | none => (t, t)

/-- `fieldType` after the alias lookup. -/
def preType (f : Field) : String := (aliasResolve f.type).1

/-- `fieldFormat` after the alias lookup and the
`if fieldType == fieldFormat` suppression. -/
def preFormat (f : Field) : String :=
  if (aliasResolve f.type).1 = (aliasResolve f.type).2 then ""
  else (aliasResolve f.type).2

/-- The `mapKeyType` branch of `addField`: when a map key type is
present and the KEY type has a table entry, emit `additionalProperties`
from the key's mapping and force the field type to object (this mirrors
the source exactly; the lookup really is on the map key type). -/
def mapResolved (f : Field) (mapKeyType : String) : Option APSchema × String × String :=
  if mapKeyType ≠ "" then
    match lookupAlias mapKeyType with
    | some p => (some ⟨false, [p.type]⟩, "object", "")
    | none => (none, preType f, preFormat f)
  else (none, preType f, preFormat f)

/-- The primitive type names accepted directly as output types. -/
def allowedValues : List String :=
  ["boolean", "integer", "number", "object", "string", "bytes"]

/-- The example value as attached to a schema: attached only when the
parsed example differs from the empty-string default
(`if example != ""` in the source). -/
def fieldExOpt (f : Field) : Option GoValue :=
  if (commentFn f.comment).2 = GoValue.str "" then none
  else some (commentFn f.comment).2

/-- writer.go `addField`: translate one field declaration into a named
field schema.  The Go code mutates `schemaProps[fieldName]` and appends
to `fieldOrder`; here the emitted pair is returned.  In the repeated
primitive branch the Go code stores a pointer to the item schema and
then sets the example through it, so the final item value carries the
example; the model constructs that final value directly. -/
def addField (packageName : String) (f : Field) (mapKeyType : String)
    (repeated : Bool) (order : Nat) : String × Schema :=
  let fieldTitle := (commentFn f.comment).1
  let fieldDescription := descriptionFn f.comment
  let additionalProps := (mapResolved f mapKeyType).1
  let fieldType := (mapResolved f mapKeyType).2.1
  let fieldFormat := (mapResolved f mapKeyType).2.2
  let ext : List (String × String) := [("x-order", toString order)]
  if allowedValues.contains fieldType then
    if repeated then
      (f.name,
        { title := fieldTitle, description := fieldDescription,
          type := ["array"], format := fieldFormat,
          items := some { type := [fieldType],
                          additionalProperties := additionalProps,
                          exampleValue := fieldExOpt f },
          extensions := ext })
    else
      (f.name,
        { title := fieldTitle, description := fieldDescription,
          type := [fieldType], format := fieldFormat,
          additionalProperties := additionalProps })
  else
    let qualified :=
      if goContainsStr fieldType "." then fieldType
      else packageName ++ "." ++ fieldType
    let ref := "#/definitions/" ++ qualified
    if repeated then
      (f.name,
        { title := fieldTitle, description := fieldDescription,
          type := ["array"], items := some { ref := ref },
          extensions := ext, exampleValue := fieldExOpt f })
    else
      (f.name,
        { title := fieldTitle, description := fieldDescription,
          ref := ref, extensions := ext, exampleValue := fieldExOpt f })

/-! ### Message and enum translation (writer.go `Message`, `Enum`) -/

/-- The one-of members harvested by the preparation loop of `Message`:
for each `Oneof` element its members, concatenated in element order. -/
def oneofMembers : List MsgElement → List MsgElement
  | [] => []
  | .oneof m :: rest => m ++ oneofMembers rest
  | _ :: rest => oneofMembers rest

/-- `allFields` of `Message`: the message's own elements followed by
every one-of block's members appended at the end. -/
def flattenElements (elements : List MsgElement) : List MsgElement :=
  elements ++ oneofMembers elements

/-- The emission loop of `Message`: walk `allFields` with its index,
translating field elements and skipping comments, one-of blocks and
unknown elements (which still consume an index). -/
def emitFields (pkg : String) : Nat → List MsgElement → List (String × Schema)
  | _, [] => []
  | i, e :: rest =>
    match e with
    | .oneofField f => addField pkg f "" false i :: emitFields pkg (i + 1) rest
    | .mapField kt f => addField pkg f kt false i :: emitFields pkg (i + 1) rest
    | .normalField rep f => addField pkg f "" rep i :: emitFields pkg (i + 1) rest
    | _ => emitFields pkg (i + 1) rest

/-- writer.go `Message`: assemble the named definition for a message.
`fieldOrder` is the name sequence of the emitted fields; the properties
map is populated by Go map assignment. -/
def messageDef (pkg : String) (msg : ProtoMessage) : String × Definition :=
  let emissions := emitFields pkg 0 (flattenElements msg.elements)
  let fieldOrder := emissions.map (fun p => p.1)
  let schemaProps := emissions.foldl (fun m p => assocSet p.1 p.2 m) []
  let schemaDesc := descriptionFn msg.comment
  let schemaDesc :=
    if fieldOrder.length > 0 then
      schemaDesc ++ "\n\nFields: " ++ String.intercalate ", " fieldOrder
    else schemaDesc
  (pkg ++ "." ++ msg.name,
    { title := (commentFn msg.comment).1,
      description := goTrimSpace schemaDesc,
      type := ["object"],
      properties := schemaProps })

/-- writer.go `Enum`: enum member names in declaration order as the
allowed values of a string-typed definition. -/
def enumDef (pkg : String) (e : ProtoEnum) : String × Definition :=
  (pkg ++ "." ++ e.name,
    { title := (commentFn e.comment).1,
      description := descriptionFn e.comment,
      type := ["string"],
      enum := e.elements.filterMap (fun el =>
        match el with
        | .enumField n => some n
        | .unknown => none) })

/-! ### RPC and service translation (writer.go `RPC`, `Service`) -/

/-- The route path of writer.go `RPC`: the base is the parent service
name lower-cased with the literal substring "service" removed by
`strings.ReplaceAll`. -/
def rpcPathName (packageName parentName rpcName : String) : String :=
  let base := goReplaceAll (goToLower parentName) "service" ""
  "/" ++ base ++ "/" ++ packageName ++ "." ++ parentName ++ "/" ++ rpcName

/-- The POST operation emitted for one RPC. -/
structure Operation where
  id : String
  tags : List String
  summary : String
  okDescription : String := "A successful response."
  okRef : String
  bodyName : String := "body"
  bodyIn : String := "body"
  bodyRequired : Bool := true
  bodyRef : String
deriving DecidableEq, Repr

/-- writer.go `RPC`: the path item keyed by the derived route.  In Go
the parent is recovered from `rpc.Parent` (panicking when it is not a
service); the model's tree makes RPCs structurally nested in their
service, so the parent name is passed in. -/
def rpcOp (packageName parentName : String) (rpc : ProtoRPC) : String × Operation :=
  (rpcPathName packageName parentName rpc.name,
    { id := rpc.name,
      tags := [parentName],
      summary := descriptionFn rpc.comment,
      okRef := "#/definitions/" ++ packageName ++ "." ++ rpc.returnsType,
      bodyRef := "#/definitions/" ++ packageName ++ "." ++ rpc.requestType })

/-! ### Document state and handlers -/

/-- The info block written by `Package`. -/
structure Info where
  title : String
  version : String
  descr : String
  xLogoUrl : String
  xLogoAlt : String
deriving DecidableEq, Repr

/-- The single OAuth2 security scheme written by `Package`. -/
structure SecurityScheme where
  description : String
  type : String
  flow : String
  tokenURL : String
deriving DecidableEq, Repr

/-- The output document: the fields of `spec.Swagger` the translator
writes (what `Get` serializes). -/
structure SwaggerDoc where
  swagger : String := ""
  schemes : List String := []
  produces : List String := []
  consumes : List String := []
  host : String := ""
  security : List (String × List String) := []
  securityDefs : List (String × SecurityScheme) := []
  info : Option Info := none
  definitions : List (String × Definition) := []
  paths : List (String × Operation) := []
  tags : List (String × String) := []
deriving DecidableEq, Repr

/-- The mutable translation state of the Writer: the document under
construction plus the active package name. -/
structure DocState where
  doc : SwaggerDoc := {}
  packageName : String := ""
deriving DecidableEq, Repr

/-- The zero Writer state before any handler runs. -/
def initState : DocState := {}

/-- writer.go `Message` as a state transition: store the definition
under its qualified name (Go map assignment). -/
def messageHandler (st : DocState) (m : ProtoMessage) : DocState :=
  let p := messageDef st.packageName m
  { st with doc := { st.doc with definitions := assocSet p.1 p.2 st.doc.definitions } }

/-- writer.go `Enum` as a state transition. -/
def enumHandler (st : DocState) (e : ProtoEnum) : DocState :=
  let p := enumDef st.packageName e
  { st with doc := { st.doc with definitions := assocSet p.1 p.2 st.doc.definitions } }

/-- writer.go `Service`: append a tag on first encounter of the service
name, no-op afterwards. -/
def serviceHandler (st : DocState) (srv : ProtoService) : DocState :=
  if (st.doc.tags.map (fun t => t.1)).contains srv.name then st
  else
    { st with doc :=
        { st.doc with tags := st.doc.tags ++ [(srv.name, descriptionFn srv.comment)] } }

/-- writer.go `RPC` as a state transition: store the operation under the
derived route path (Go map assignment, silently overwriting). -/
def rpcHandler (parentName : String) (st : DocState) (rpc : ProtoRPC) : DocState :=
  let p := rpcOp st.packageName parentName rpc
  { st with doc := { st.doc with paths := assocSet p.1 p.2 st.doc.paths } }

/-! ### Configuration and the compassiot.go helpers -/

/-- The Writer configuration captured by `NewWriter`. -/
structure Config where
  filename : String
  hostname : String
  pathPrefixVal : String
  version : String
  sdkfiles : List String
  protoDir : String
  templateDir : String

/-- writer.go `NewWriter`: default the path prefix to "/twirp" when
empty and split the SDK file list on commas.  (The Go field is named
pathPrefix; the model appends Val to the name for tooling reasons.) -/
def NewWriter (filename hostname pathPrefixArg version sdkfiles protoDir templateDir :
    String) : Config :=
  { filename := filename,
    hostname := hostname,
    pathPrefixVal := if pathPrefixArg = "" then "/twirp" else pathPrefixArg,
    version := version,
    sdkfiles := goSplitChar sdkfiles ',',
    protoDir := protoDir,
    templateDir := templateDir }

/-- compassiot.go `makeGcsUrl` (the `url.JoinPath` call modelled as a
plain slash join of already clean segments). -/
def makeGcsUrl (bucket : String) (args : List String) : String :=
  String.intercalate "/" ("https://storage.googleapis.com" :: bucket :: args)

/-- compassiot.go `getLabel`: file name minus extension. -/
def getLabel (file : String) : String :=
  goTrimSuffix file (goFilepathExt file)

/-- compassiot.go `getTemplateFile`. -/
def getTemplateFile (templateDir protoFile : String) : String :=
  let baseProto := goFilepathBase protoFile
  let baseHtml := goReplaceAll baseProto "proto" "html"
  goPathJoin templateDir baseHtml

/-- compassiot.go `parseTemplate`.  The two external capabilities are
parameters: `rf` models `os.ReadFile` (`none` is a read error, which the
Go code converts to an empty result and nil error), and `en` models the
text/template parse-and-execute pipeline (`none` is a parse or execute
error). -/
def parseTemplate (rf : String → Option String)
    (en : String → String → List (String × String) → Option String)
    (templateFile : String) (data : List (String × String)) : Option String :=
  match rf templateFile with
  | none => some ""
  | some tstr => en (getLabel templateFile) tstr data

/-- compassiot.go `mapSdkFiles`: key is the base name with dots,
underscores and hyphens removed and trimmed, value its public URL; built
by Go map assignment. -/
def mapSdkFiles (cfg : Config) : List (String × String) :=
  let label := getLabel cfg.filename
  cfg.sdkfiles.foldl (fun m f =>
    let key := goFilepathBase f
    let key := goReplaceAll key "." ""
    let key := goReplaceAll key "_" ""
    let key := goReplaceAll key "-" ""
    let key := goTrimSpace key
    assocSet key (makeGcsUrl "compass-public-docs" [label, cfg.version, f]) m) []

/-- compassiot.go `MakeDescription`: render the per-file template,
returning the empty string on any error. -/
def makeDescription (rf : String → Option String)
    (en : String → String → List (String × String) → Option String)
    (cfg : Config) : String :=
  match parseTemplate rf en (getTemplateFile cfg.templateDir cfg.filename)
      (mapSdkFiles cfg) with
  | none => ""
  | some d => d

/-- writer.go `Package`: initialize the whole document from fixed
constants and the configuration, then set the active package name. -/
def packageHandler (rf : String → Option String)
    (en : String → String → List (String × String) → Option String)
    (cfg : Config) (pkgName : String) (_st : DocState) : DocState :=
  { doc :=
      { swagger := "2.0",
        schemes := ["https"],
        produces := ["application/json"],
        consumes := ["application/json"],
        host := cfg.hostname,
        security := [("oauth", [])],
        securityDefs :=
          [("oauth",
            { description := "Please use [client credentials](https://datatracker.ietf.org/doc/html/rfc6749#section-4.4) given to you by Compass IOT, please only use [basic auth](https://en.wikipedia.org/wiki/Basic_access_authentication) via the 'Authorization' header to obtain access tokens",
              type := "oauth2",
              flow := "application",
              tokenURL := goPathJoin cfg.hostname "auth" })],
        info := some
          { title := goFilepathBase cfg.filename,
            version := cfg.version,
            descr := makeDescription rf en cfg,
            xLogoUrl := makeGcsUrl "compass-public-docs" ["compass_logo.png"],
            xLogoAlt := "Compass IoT logo" },
        definitions := [],
        paths := [],
        tags := [] },
    packageName := pkgName }

/-! ### The walk (proto.Walk over the root file and imports) -/

/-- writer.go `Import` as a state transition.  `fs` models the file
system behind `loadProtoFile` (directory and file name to parsed tree,
`none` for any load or parse failure).  Imported files are walked with
the package-setting closure, `Import` itself, `Message` and `Enum` (no
services, RPCs, paths or tags), and the saved package name is restored
afterwards.  The Go walk recurses without any cycle guard; the `fuel`
argument makes the model total, returning the state unchanged when
the nesting of imports exceeds the fuel. -/
def doImport (fs : String → String → Option ProtoFile) (pd : String) :
    Nat → DocState → String → DocState
  | 0, st, _ => st
  | fuel + 1, st, filename =>
    if goContainsStr filename "google/api/annotations.proto" then st
    else if goContainsStr filename "google/protobuf/timestamp.proto" then st
    else if goContainsStr filename "google/protobuf/wrappers.proto" then st
    else
      match fs pd filename with
      | none => st
      | some d =>
        let old := st.packageName
        let st2 := d.elements.foldl (fun s e =>
          match e with
          | .pkg n => { s with packageName := n }
          | .importDecl f2 => doImport fs pd fuel s f2
          | .message m => messageHandler s m
          | .enum e2 => enumHandler s e2
          | .service _ => s
          | .other => s) st
        { st2 with packageName := old }

/-- One step of the root file walk with the full handler set of
`Handlers`: package, RPC, message, enum, service, import.  `proto.Walk`
visits a service element (firing the service handler) and then its
nested RPCs (firing the RPC handler). -/
def rootStep (fs : String → String → Option ProtoFile) (pd : String)
    (ph : String → DocState → DocState) (fuel : Nat)
    (st : DocState) (e : ProtoElement) : DocState :=
  match e with
  | .pkg n => ph n st
  | .importDecl f => doImport fs pd fuel st f
  | .message m => messageHandler st m
  | .enum e2 => enumHandler st e2
  | .service s => s.rpcs.foldl (rpcHandler s.name) (serviceHandler st s)
  | .other => st

/-- The walk of the root file's elements. -/
def walkRoot (fs : String → String → Option ProtoFile) (pd : String)
    (ph : String → DocState → DocState) (fuel : Nat)
    (st : DocState) (elems : List ProtoElement) : DocState :=
  elems.foldl (rootStep fs pd ph fuel) st

/-- The error classes of `WalkFile`: a root load or parse failure
(propagated from `loadProtoFile`), or the distinguished
`ErrNoServiceDefinition` empty-result condition. -/
inductive WalkErr where
  | loadErr
  | noServiceDefinition
deriving DecidableEq, Repr

/-- writer.go `WalkFile`: load the root file (propagating failure),
walk it with the full handler set, and signal
`ErrNoServiceDefinition` when no paths were produced.  The Writer state
after the call is returned alongside the error value (in Go it stays on
the receiver and `Get` serializes it). -/
def walkFile (fs : String → String → Option ProtoFile)
    (rf : String → Option String)
    (en : String → String → List (String × String) → Option String)
    (fuel : Nat) (cfg : Config) : Except WalkErr Unit × DocState :=
  match fs cfg.protoDir cfg.filename with
  | none => (.error .loadErr, initState)
  | some d =>
    let st := walkRoot fs cfg.protoDir (packageHandler rf en cfg) fuel initState d.elements
    if st.doc.paths = [] then (.error .noServiceDefinition, st)
    else (.ok (), st)

/-! ### Specification-side definitions used to state the claims -/

/-- The first paragraph of a comment (text before the first blank line,
lines joined by single spaces), as the claims speak about it: the
accumulated text with its leading space removed. -/
def firstPara (lines : List String) : List Char :=
  (commentJoin lines).drop 1

/-- The segment of a text before its first semicolon. -/
def titleSeg (t : List Char) : List Char :=
  t.takeWhile (fun c => c ≠ ';')

/-- The segment of a text between its first and second semicolons. -/
def exampleSeg (t : List Char) : List Char :=
  ((t.dropWhile (fun c => c ≠ ';')).drop 1).takeWhile (fun c => c ≠ ';')

/-- The example parse chain as the spec states it: integer first, then
float, then the literal string. -/
def parseExample (s : String) : GoValue :=
  match goAtoi s with
  | some n => .int n
  | none =>
    match goParseFloat s with
    | some fv => .float fv
    | none => .str s

/-- The comment lines preceding the first blank line. -/
def takeUntilBlank (lines : List String) : List String :=
  lines.takeWhile (fun l => goTrimSpace l ≠ "")

/-- A line as the description builder renders it: trimmed, with
everything from the first semicolon on dropped. -/
def descLine (line : String) : String :=
  ⟨(goTrimSpace line).data.takeWhile (fun c => c ≠ ';')⟩

/-- The name contributed to the field list by one message element
(field elements only). -/
def elementFieldName : MsgElement → Option String
  | .oneofField f => some f.name
  | .mapField _ f => some f.name
  | .normalField _ f => some f.name
  | _ => none

/-- Does the translation of this field carry an x-order extension?
Repeated fields and reference-typed fields do; non-repeated fields whose
resolved type is a recognized primitive (which includes every map field
whose key type is in the table, since those become plain objects) do
not. -/
def carriesXOrder (f : Field) (kt : String) (rep : Bool) : Bool :=
  rep || !(allowedValues.contains (mapResolved f kt).2.1)

/-- The indices (within the flattened element list) of the fields whose
schemas carry an x-order extension. -/
def xOrderIndices : Nat → List MsgElement → List Nat
  | _, [] => []
  | i, e :: rest =>
    match e with
    | .oneofField f =>
      if carriesXOrder f "" false then i :: xOrderIndices (i + 1) rest
      else xOrderIndices (i + 1) rest
    | .mapField kt f =>
      if carriesXOrder f kt false then i :: xOrderIndices (i + 1) rest
      else xOrderIndices (i + 1) rest
    | .normalField rep f =>
      if carriesXOrder f "" rep then i :: xOrderIndices (i + 1) rest
      else xOrderIndices (i + 1) rest
    | _ => xOrderIndices (i + 1) rest

/-- Is the resolved type of a plain (non-map) field a recognized output
primitive? -/
def isPrimField (f : Field) : Bool :=
  allowedValues.contains (mapResolved f "").2.1

/-- The service-name base of a route as the spec words it: the
lower-cased name with every (leftmost, non-overlapping) occurrence of
the literal "service" removed, read as the concatenation of the
segments between occurrences. -/
def specServiceBase (s : String) : String :=
  ⟨(splitPat "service".data (goToLower s).data.length (goToLower s).data).flatten⟩

/-! ### Helper lemmas -/

theorem splitPat_ne_nil (pat : List Char) :
    ∀ fuel s, splitPat pat fuel s ≠ [] := by
  intro fuel
  induction fuel with
  | zero => intro s; simp [splitPat]
  | succ n ih =>
    intro s
    cases s with
    | nil => simp [splitPat]
    | cons c rest =>
      simp only [splitPat]
      by_cases h : (!pat.isEmpty && pat.isPrefixOf (c :: rest)) = true
      · simp [h]
      · simp only [Bool.not_eq_true] at h
        simp only [h, Bool.false_eq_true, if_false]
        cases hs : splitPat pat n rest with
        | nil => exact absurd hs (ih rest)
        | cons g gs => simp

theorem replaceGo_nil_eq_join (pat : List Char) :
    ∀ fuel s, replaceGo pat [] fuel s = (splitPat pat fuel s).flatten := by
  intro fuel
  induction fuel with
  | zero => intro s; simp [replaceGo, splitPat]
  | succ n ih =>
    intro s
    cases s with
    | nil => simp [replaceGo, splitPat]
    | cons c rest =>
      simp only [replaceGo, splitPat]
      by_cases h : (!pat.isEmpty && pat.isPrefixOf (c :: rest)) = true
      · simp [h, ih]
      · simp only [Bool.not_eq_true] at h
        simp only [h, Bool.false_eq_true, if_false]
        cases hs : splitPat pat n rest with
        | nil => exact absurd hs (splitPat_ne_nil pat n rest)
        | cons g gs =>
          have := ih rest
          rw [hs] at this
          simp [this]

theorem splitChar_ne_nil (sep : Char) :
    ∀ l, splitChar sep l ≠ [] := by
  intro l
  induction l with
  | nil => simp [splitChar]
  | cons c rest ih =>
    simp only [splitChar]
    by_cases h : c = sep
    · simp [h]
    · simp only [h, if_false]
      cases hs : splitChar sep rest with
      | nil => exact absurd hs ih
      | cons g gs => simp

theorem splitChar_eq_cons (sep : Char) :
    ∀ l, splitChar sep l = l.takeWhile (fun c => c ≠ sep) ::
      (if sep ∈ l then splitChar sep ((l.dropWhile (fun c => c ≠ sep)).drop 1)
       else []) := by
  intro l
  induction l with
  | nil => simp [splitChar]
  | cons c rest ih =>
    by_cases h : c = sep
    · subst h
      simp [splitChar, List.takeWhile_cons, List.dropWhile_cons]
    · have hmem : (sep ∈ c :: rest) ↔ sep ∈ rest := by
        rw [List.mem_cons]
        exact or_iff_right (fun hc => h hc.symm)
      cases hs : splitChar sep rest with
      | nil => exact absurd hs (splitChar_ne_nil sep rest)
      | cons g gs =>
        rw [hs] at ih
        injection ih with hg hgs
        simp only [splitChar, if_neg h, hs, List.takeWhile_cons, List.dropWhile_cons]
        simp [h, hmem, hg, hgs]

theorem commentJoin_takeUntilBlank :
    ∀ lines, commentJoin lines = commentJoin (takeUntilBlank lines) := by
  intro lines
  induction lines with
  | nil => rfl
  | cons line rest ih =>
    by_cases h : goTrimSpace line = ""
    · simp [commentJoin, takeUntilBlank, List.takeWhile_cons, h]
    · simp [commentJoin, takeUntilBlank, List.takeWhile_cons, h, ih]

theorem addField_fst (pkg : String) (f : Field) (kt : String)
    (rep : Bool) (ord : Nat) :
    (addField pkg f kt rep ord).1 = f.name := by
  unfold addField
  by_cases hc : (mapResolved f kt).2.1 ∈ allowedValues <;>
    by_cases hr : rep = true <;> simp [hc, hr]

theorem addField_extensions (pkg : String) (f : Field) (kt : String)
    (rep : Bool) (ord : Nat) :
    (addField pkg f kt rep ord).2.extensions =
      if carriesXOrder f kt rep then [("x-order", toString ord)] else [] := by
  unfold addField carriesXOrder
  by_cases hc : (mapResolved f kt).2.1 ∈ allowedValues <;>
    by_cases hr : rep = true <;> simp [hc, hr]

theorem emitFields_map_fst (pkg : String) :
    ∀ (L : List MsgElement) (i : Nat),
      (emitFields pkg i L).map (fun p => p.1) = L.filterMap elementFieldName := by
  intro L
  induction L with
  | nil => intro i; rfl
  | cons e rest ih =>
    intro i
    cases e <;> simp [emitFields, elementFieldName, addField_fst, ih]

theorem emitFields_xorders (pkg : String) :
    ∀ (L : List MsgElement) (i : Nat),
      (emitFields pkg i L).filterMap
          (fun p => p.2.extensions.lookup "x-order") =
        (xOrderIndices i L).map (fun n => toString n) := by
  intro L
  induction L with
  | nil => intro i; rfl
  | cons e rest ih =>
    intro i
    cases e with
    | oneofField f =>
      simp only [emitFields, xOrderIndices, List.filterMap_cons, addField_extensions]
      by_cases h : carriesXOrder f "" false = true <;> simp [h, ih]
    | mapField kt f =>
      simp only [emitFields, xOrderIndices, List.filterMap_cons, addField_extensions]
      by_cases h : carriesXOrder f kt false = true <;> simp [h, ih]
    | normalField rep f =>
      simp only [emitFields, xOrderIndices, List.filterMap_cons, addField_extensions]
      by_cases h : carriesXOrder f "" rep = true <;> simp [h, ih]
    | comment c => simp [emitFields, xOrderIndices, ih]
    | oneof m => simp [emitFields, xOrderIndices, ih]
    | unknown => simp [emitFields, xOrderIndices, ih]

theorem xOrderIndices_ge :
    ∀ (L : List MsgElement) (i n : Nat), n ∈ xOrderIndices i L → i ≤ n := by
  intro L
  induction L with
  | nil => intro i n h; simp [xOrderIndices] at h
  | cons e rest ih =>
    intro i n h
    have step : ∀ m, m ∈ xOrderIndices (i + 1) rest → i ≤ m := fun m hm =>
      Nat.le_of_succ_le (ih (i + 1) m hm)
    cases e with
    | oneofField f =>
      simp only [xOrderIndices] at h
      split at h
      · rcases List.mem_cons.1 h with rfl | h'
        exacts [Nat.le_refl _, step n h']
      · exact step n h
    | mapField kt f =>
      simp only [xOrderIndices] at h
      split at h
      · rcases List.mem_cons.1 h with rfl | h'
        exacts [Nat.le_refl _, step n h']
      · exact step n h
    | normalField rep f =>
      simp only [xOrderIndices] at h
      split at h
      · rcases List.mem_cons.1 h with rfl | h'
        exacts [Nat.le_refl _, step n h']
      · exact step n h
    | comment c => exact step n (by simpa [xOrderIndices] using h)
    | oneof m => exact step n (by simpa [xOrderIndices] using h)
    | unknown => exact step n (by simpa [xOrderIndices] using h)

theorem xOrderIndices_pairwise :
    ∀ (L : List MsgElement) (i : Nat),
      (xOrderIndices i L).Pairwise (fun a b => a < b) := by
  intro L
  induction L with
  | nil => intro i; simp [xOrderIndices]
  | cons e rest ih =>
    intro i
    have head : ∀ m, m ∈ xOrderIndices (i + 1) rest → i < m := fun m hm =>
      Nat.lt_of_succ_le (xOrderIndices_ge rest (i + 1) m hm)
    cases e with
    | oneofField f =>
      simp only [xOrderIndices]
      split
      · exact List.Pairwise.cons head (ih (i + 1))
      · exact ih (i + 1)
    | mapField kt f =>
      simp only [xOrderIndices]
      split
      · exact List.Pairwise.cons head (ih (i + 1))
      · exact ih (i + 1)
    | normalField rep f =>
      simp only [xOrderIndices]
      split
      · exact List.Pairwise.cons head (ih (i + 1))
      · exact ih (i + 1)
    | comment c => simpa [xOrderIndices] using ih (i + 1)
    | oneof m => simpa [xOrderIndices] using ih (i + 1)
    | unknown => simpa [xOrderIndices] using ih (i + 1)

theorem listInfix_singleton (c : Char) :
    ∀ l : List Char, listInfix [c] l = true ↔ c ∈ l := by
  intro l
  induction l with
  | nil => simp [listInfix, List.isEmpty]
  | cons x rest ih =>
    simp [listInfix, List.isPrefixOf, ih, Bool.or_eq_true, beq_iff_eq]

theorem takeWhileNe_of_not_mem (c : Char) :
    ∀ l : List Char, c ∉ l → l.takeWhile (fun x => x ≠ c) = l := by
  intro l
  induction l with
  | nil => intro _; rfl
  | cons x rest ih =>
    intro h
    have hx : x ≠ c := fun hc => h (hc ▸ List.mem_cons_self x rest)
    have hr : c ∉ rest := fun hc => h (List.mem_cons_of_mem x hc)
    rw [List.takeWhile_cons, if_pos (by simp [hx]), ih hr]

theorem descLine_eq (line : String) :
    (let t := goTrimSpace line
     if goContainsStr t ";" then
       match goSplitChar t ';' with
       | [] => t
       | x0 :: _ => x0
     else t) = descLine line := by
  by_cases h : goContainsStr (goTrimSpace line) ";" = true
  · have hmem : ';' ∈ (goTrimSpace line).data := (listInfix_singleton ';' _).mp h
    have hsc := splitChar_eq_cons ';' (goTrimSpace line).data
    simp only [goSplitChar, descLine, h, if_true, hsc, List.map_cons]
  · have hmem : ';' ∉ (goTrimSpace line).data :=
      fun hm => h ((listInfix_singleton ';' _).mpr hm)
    simp only [descLine, h]
    rw [takeWhileNe_of_not_mem ';' _ hmem]
    simp [Bool.not_eq_true] at h
    simp [h]

/-! ### Claim theorems -/

/-- C1: evaluation of `addField` at the failing input, a map field
`map<string, int32> counts`.  The code emits an object schema whose
`additionalProperties` type is "string" — the mapped primitive of the
map's KEY type — although the value type int32 maps to "integer"; the
claim (and the spec) require the VALUE type's mapped primitive. -/
theorem C1_map_field_uses_key_type_mapping :
    ((addField "pkg" ⟨"counts", "int32", none⟩ "string" false 0).2.type = ["object"] ∧
     (addField "pkg" ⟨"counts", "int32", none⟩ "string" false 0).2.additionalProperties =
       some { allows := false, type := ["string"] }) ∧
    (lookupAlias "int32").map (fun p => p.type) = some "integer" ∧
    ¬ (addField "pkg" ⟨"counts", "int32", none⟩ "string" false 0).2.additionalProperties =
        some { allows := false, type := ["integer"] } := by
  decide

/-- C5: for every RPC in a service under the active package, the route
path is "/" ++ base ++ "/" ++ package ++ "." ++ service ++ "/" ++ rpc,
where base is the service name lower-cased with every leftmost
non-overlapping occurrence of the literal "service" removed (stated via
the independent segment-splitting reading `specServiceBase`); in
particular OrderService/GetOrder in package orders yields
/order/orders.OrderService/GetOrder. -/
theorem C5_rpc_route_path (pkg svcName : String) (rpc : ProtoRPC) :
    (rpcOp pkg svcName rpc).1 =
      "/" ++ specServiceBase svcName ++ "/" ++ pkg ++ "." ++ svcName ++ "/" ++ rpc.name ∧
    (rpcOp "orders" "OrderService"
        ⟨"GetOrder", "GetOrderRequest", "GetOrderResponse", none⟩).1 =
      "/order/orders.OrderService/GetOrder" := by
  have bridge : ∀ s : String,
      goReplaceAll (goToLower s) "service" "" = specServiceBase s := by
    intro s
    unfold goReplaceAll specServiceBase
    apply congrArg String.mk
    rw [show ("" : String).data = [] from rfl]
    exact replaceGo_nil_eq_join "service".data (goToLower s).data.length (goToLower s).data
  constructor
  · show rpcPathName pkg svcName rpc.name = _
    unfold rpcPathName
    rw [bridge]
  · rfl

/-- C6: for every import whose file cannot be loaded or parsed
(the loader returns failure), `Import` returns with the translation
state — definitions, paths, tags and the current package name —
exactly unchanged, and without signaling any error. -/
theorem C6_import_load_failure_no_effect (fs : String → String → Option ProtoFile)
    (pd : String) (fuel : Nat) (st : DocState) (filename : String)
    (h : fs pd filename = none) :
    doImport fs pd fuel st filename = st := by
  cases fuel with
  | zero => rfl
  | succ n => simp [doImport, h]

/-- Witness for C6: a concrete state with one collected definition
survives an import of a missing file untouched. -/
theorem C6_witness :
    ((fun _ _ => (none : Option ProtoFile)) "protos" "missing.proto" = none) ∧
    doImport (fun _ _ => none) "protos" 3
        { doc := { definitions := [("p.M", { type := ["object"] })] }, packageName := "p" }
        "missing.proto" =
      { doc := { definitions := [("p.M", { type := ["object"] })] }, packageName := "p" } :=
  ⟨rfl, C6_import_load_failure_no_effect _ _ _ _ _ rfl⟩

/-- C8: for every documentation comment whose first paragraph (the text
before the first blank line) contains a semicolon, `comment` returns the
segment before the first semicolon as the title and parses the segment
between the first and second semicolons (trimmed) as an integer first,
then as a float, then keeps it as a literal string. -/
theorem C8_comment_semicolon_title_and_example (lines : List String)
    (h : ';' ∈ firstPara lines) :
    commentFn (some ⟨lines⟩) =
      (⟨titleSeg (firstPara lines)⟩,
       parseExample ⟨trimChars (exampleSeg (firstPara lines))⟩) := by
  have hne : firstPara lines ≠ [] := List.ne_nil_of_mem h
  have hlen : (commentJoin lines).length > 1 := by
    rcases Nat.lt_or_ge 1 (commentJoin lines).length with h' | h'
    · exact h'
    · exact absurd (List.drop_eq_nil_of_le h') hne
  have hX : splitChar ';' ((commentJoin lines).drop 1) =
      titleSeg (firstPara lines) :: exampleSeg (firstPara lines) ::
        (if ';' ∈ ((firstPara lines).dropWhile (fun c => c ≠ ';')).drop 1 then
           splitChar ';'
             (((((firstPara lines).dropWhile (fun c => c ≠ ';')).drop 1).dropWhile
                 (fun c => c ≠ ';')).drop 1)
         else []) := by
    rw [show (commentJoin lines).drop 1 = firstPara lines from rfl,
        splitChar_eq_cons ';' (firstPara lines), if_pos h,
        splitChar_eq_cons ';' (((firstPara lines).dropWhile (fun c => c ≠ ';')).drop 1)]
    rfl
  show commentCore lines = _
  simp only [commentCore]
  rw [if_pos hlen, hX]
  dsimp only
  cases ha : goAtoi ⟨trimChars (exampleSeg (firstPara lines))⟩ with
  | some n => simp [parseExample, ha]
  | none =>
    cases hf : goParseFloat ⟨trimChars (exampleSeg (firstPara lines))⟩ with
    | some fv => simp [parseExample, ha, hf]
    | none => simp [parseExample, ha, hf]

/-- Witness for C8: the three spec examples, discharged through the
theorem at their concrete comments: "Age; 42" gives integer 42,
"Age; 42.5" gives float 42.5, "Age; adult" gives the literal string. -/
theorem C8_witness :
    (';' ∈ firstPara ["Age; 42"]) ∧
    commentFn (some ⟨["Age; 42"]⟩) = ("Age", GoValue.int 42) ∧
    commentFn (some ⟨["Age; 42.5"]⟩) = ("Age", GoValue.float (.finite (mkRat 85 2))) ∧
    commentFn (some ⟨["Age; adult"]⟩) = ("Age", GoValue.str "adult") :=
  ⟨by decide,
   (C8_comment_semicolon_title_and_example ["Age; 42"] (by decide)).trans (by decide),
   (C8_comment_semicolon_title_and_example ["Age; 42.5"] (by decide)).trans (by decide),
   (C8_comment_semicolon_title_and_example ["Age; adult"] (by decide)).trans (by decide)⟩

/-- C10: the title and example returned by `comment` depend only on the
lines preceding the first blank line, while `description` is built from
all lines (each trimmed and cut at its first semicolon, joined by
newlines), so titles or examples occurring after a blank line are
ignored by `comment` yet their lines still feed the description. -/
theorem C10_comment_first_paragraph_description_all_lines (lines : List String) :
    commentFn (some ⟨lines⟩) = commentFn (some ⟨takeUntilBlank lines⟩) ∧
    descriptionFn (some ⟨lines⟩) = String.intercalate "\n" (lines.map descLine) := by
  constructor
  · show commentCore lines = commentCore (takeUntilBlank lines)
    unfold commentCore
    rw [commentJoin_takeUntilBlank lines]
  · show descriptionCore lines = _
    unfold descriptionCore
    congr 1
    apply List.map_congr_left
    intro line _
    exact descLine_eq line

/-- C2 (amended): for every message with at least one translated field,
the definition's description is the message comment's description
followed (after trimming) by a "Fields: " line listing the field names
in emission order, which is the message's directly declared fields in
declaration order followed by ALL one-of members appended at the end
(in block order) — not interleaved at the one-of block's position. -/
theorem C2_message_description_fields_line (pkg : String) (msg : ProtoMessage)
    (h : msg.elements.filterMap elementFieldName ++
         (oneofMembers msg.elements).filterMap elementFieldName ≠ []) :
    (emitFields pkg 0 (flattenElements msg.elements)).map (fun p => p.1) =
      msg.elements.filterMap elementFieldName ++
        (oneofMembers msg.elements).filterMap elementFieldName ∧
    (messageDef pkg msg).2.description =
      goTrimSpace (descriptionFn msg.comment ++ "\n\nFields: " ++
        String.intercalate ", "
          (msg.elements.filterMap elementFieldName ++
           (oneofMembers msg.elements).filterMap elementFieldName)) := by
  have hnames : (emitFields pkg 0 (flattenElements msg.elements)).map (fun p => p.1) =
      msg.elements.filterMap elementFieldName ++
        (oneofMembers msg.elements).filterMap elementFieldName := by
    rw [emitFields_map_fst]
    unfold flattenElements
    rw [List.filterMap_append]
  refine ⟨hnames, ?_⟩
  unfold messageDef
  dsimp only
  rw [hnames, if_pos (List.length_pos.2 h)]

/-- Witness for C2 (amended): a message `{ a; oneof { x }; b }` has a
non-empty field list and its description is exactly the Fields line
with the one-of member x appended after a and b. -/
theorem C2_witness :
    (([MsgElement.normalField false ⟨"a", "Msg", none⟩,
       MsgElement.oneof [MsgElement.oneofField ⟨"x", "Msg", none⟩],
       MsgElement.normalField false ⟨"b", "Msg", none⟩] :
         List MsgElement).filterMap elementFieldName ++
       (oneofMembers
         [MsgElement.normalField false ⟨"a", "Msg", none⟩,
          MsgElement.oneof [MsgElement.oneofField ⟨"x", "Msg", none⟩],
          MsgElement.normalField false ⟨"b", "Msg", none⟩]).filterMap
         elementFieldName ≠ []) ∧
    (messageDef "pkg" ⟨"M", none,
        [MsgElement.normalField false ⟨"a", "Msg", none⟩,
         MsgElement.oneof [MsgElement.oneofField ⟨"x", "Msg", none⟩],
         MsgElement.normalField false ⟨"b", "Msg", none⟩]⟩).2.description =
      "Fields: a, b, x" :=
  ⟨by decide,
   ((C2_message_description_fields_line "pkg"
       ⟨"M", none,
        [MsgElement.normalField false ⟨"a", "Msg", none⟩,
         MsgElement.oneof [MsgElement.oneofField ⟨"x", "Msg", none⟩],
         MsgElement.normalField false ⟨"b", "Msg", none⟩]⟩ (by decide)).2).trans
     (by decide)⟩

/-- C2 counterexample: for the message `{ a; oneof { x }; b }` the
claim predicts the Fields line "Fields: a, x, b" (one-of members
interleaved at the block position), but the code produces
"Fields: a, b, x" (one-of members appended at the end). -/
theorem C2_counterexample :
    (messageDef "pkg" ⟨"M", none,
        [MsgElement.normalField false ⟨"a", "Msg", none⟩,
         MsgElement.oneof [MsgElement.oneofField ⟨"x", "Msg", none⟩],
         MsgElement.normalField false ⟨"b", "Msg", none⟩]⟩).2.description =
      "Fields: a, b, x" ∧
    (messageDef "pkg" ⟨"M", none,
        [MsgElement.normalField false ⟨"a", "Msg", none⟩,
         MsgElement.oneof [MsgElement.oneofField ⟨"x", "Msg", none⟩],
         MsgElement.normalField false ⟨"b", "Msg", none⟩]⟩).2.description ≠
      "Fields: a, x, b" := by
  decide

/-- C3 (amended): over a message's flattened element list, the x-order
values attached to the emitted field schemas are exactly the decimal
renderings of the indices of the carrying fields (repeated or
reference-typed fields; non-repeated primitive-typed fields carry no
x-order at all), and those indices are strictly increasing — but, since
comments, one-of blocks and primitive fields also consume indices, the
sequence need not start at 0 and need not be gap-free. -/
theorem C3_xorder_strictly_increasing (pkg : String) (msg : ProtoMessage) :
    (emitFields pkg 0 (flattenElements msg.elements)).filterMap
        (fun p => p.2.extensions.lookup "x-order") =
      (xOrderIndices 0 (flattenElements msg.elements)).map (fun n => toString n) ∧
    (xOrderIndices 0 (flattenElements msg.elements)).Pairwise (fun a b => a < b) :=
  ⟨emitFields_xorders pkg _ 0, xOrderIndices_pairwise _ 0⟩

/-- C3 counterexample: in the message `{ string p; oneof { x } }` the
primitive field p carries no x-order extension at all and the one-of
member x carries x-order 2 (its index in the flattened list, after the
one-of block consumed index 1), so the attached values are not the
gap-free sequence 0, 1 the claim requires. -/
theorem C3_counterexample :
    (emitFields "pkg" 0 (flattenElements
        [MsgElement.normalField false ⟨"p", "string", none⟩,
         MsgElement.oneof [MsgElement.oneofField ⟨"x", "Msg", none⟩]])).map
        (fun p => p.2.extensions.lookup "x-order") =
      [none, some "2"] ∧
    ([none, some "2"] : List (Option String)) ≠ [some "0", some "1"] := by
  decide

/-- C4 (amended): for every repeated field the emitted schema has type
array; title, description and format agree with the non-repeated
translation but sit on the wrapper; the items sub-schema keeps the
non-repeated schema's type, reference and additionalProperties with
title, description, format and x-order cleared; the example, when
present, is carried by the item for primitive-typed fields but by the
array wrapper (not the item) for reference-typed fields. -/
theorem C4_repeated_field_wrapper_items (pkg : String) (f : Field) (ord : Nat) :
    (addField pkg f "" true ord).2.type = ["array"] ∧
    (addField pkg f "" true ord).2.title = (addField pkg f "" false ord).2.title ∧
    (addField pkg f "" true ord).2.description =
      (addField pkg f "" false ord).2.description ∧
    (addField pkg f "" true ord).2.format = (addField pkg f "" false ord).2.format ∧
    (addField pkg f "" true ord).2.extensions = [("x-order", toString ord)] ∧
    (addField pkg f "" true ord).2.items = some
      { type := (addField pkg f "" false ord).2.type,
        ref := (addField pkg f "" false ord).2.ref,
        additionalProperties := (addField pkg f "" false ord).2.additionalProperties,
        exampleValue := if isPrimField f then fieldExOpt f else none } ∧
    (addField pkg f "" true ord).2.exampleValue =
      (if isPrimField f then none else fieldExOpt f) := by
  unfold addField isPrimField
  by_cases hc : (mapResolved f "").2.1 ∈ allowedValues <;> simp [hc]

/-- C4 counterexample: for the repeated reference-typed field f of type
Msg with comment "T; 7", the non-repeated translation carries example 7,
yet the repeated translation's item schema is the bare reference with no
example — the example migrated to the array wrapper, contradicting the
claim that the item carries the example. -/
theorem C4_counterexample :
    (addField "pkg" ⟨"f", "Msg", some ⟨["T; 7"]⟩⟩ "" false 0).2.exampleValue =
      some (GoValue.int 7) ∧
    (addField "pkg" ⟨"f", "Msg", some ⟨["T; 7"]⟩⟩ "" true 0).2.items =
      some { ref := "#/definitions/pkg.Msg" } ∧
    ((addField "pkg" ⟨"f", "Msg", some ⟨["T; 7"]⟩⟩ "" true 0).2.items).map
        (fun i => i.exampleValue) = some none ∧
    (addField "pkg" ⟨"f", "Msg", some ⟨["T; 7"]⟩⟩ "" true 0).2.exampleValue =
      some (GoValue.int 7) := by
  decide

/-- C7: for every root file that loads and parses successfully but
whose walk produces zero path entries, `WalkFile` returns the
distinguished `ErrNoServiceDefinition` condition, which is a different
error class from the fatal load/parse failure. -/
theorem C7_zero_paths_no_service_definition
    (fs : String → String → Option ProtoFile) (rf : String → Option String)
    (en : String → String → List (String × String) → Option String)
    (fuel : Nat) (cfg : Config) (d : ProtoFile)
    (h1 : fs cfg.protoDir cfg.filename = some d)
    (h2 : (walkRoot fs cfg.protoDir (packageHandler rf en cfg) fuel initState
            d.elements).doc.paths = []) :
    (walkFile fs rf en fuel cfg).1 = Except.error WalkErr.noServiceDefinition ∧
    WalkErr.noServiceDefinition ≠ WalkErr.loadErr := by
  refine ⟨?_, by simp⟩
  unfold walkFile
  rw [h1]
  dsimp only
  rw [if_pos h2]

/-- Witness for C7: a root file with a package and a service with zero
RPCs loads successfully, produces no paths, and yields the
`ErrNoServiceDefinition` condition. -/
theorem C7_witness :
    ((fun _ _ => some (⟨[ProtoElement.pkg "p",
          ProtoElement.service ⟨"S", none, []⟩]⟩ : ProtoFile)) :
        String → String → Option ProtoFile) "protos" "svc.proto" =
      some ⟨[ProtoElement.pkg "p", ProtoElement.service ⟨"S", none, []⟩]⟩ ∧
    (walkRoot (fun _ _ => some ⟨[ProtoElement.pkg "p",
          ProtoElement.service ⟨"S", none, []⟩]⟩) "protos"
        (packageHandler (fun _ => none) (fun _ _ _ => none)
          (NewWriter "svc.proto" "api.example.com" "" "1.0" "a.ts" "protos" "tmpl"))
        2 initState
        [ProtoElement.pkg "p", ProtoElement.service ⟨"S", none, []⟩]).doc.paths = [] ∧
    (walkFile (fun _ _ => some ⟨[ProtoElement.pkg "p",
          ProtoElement.service ⟨"S", none, []⟩]⟩) (fun _ => none) (fun _ _ _ => none)
        2 (NewWriter "svc.proto" "api.example.com" "" "1.0" "a.ts" "protos" "tmpl")).1 =
      Except.error WalkErr.noServiceDefinition :=
  ⟨rfl, rfl,
   (C7_zero_paths_no_service_definition _ _ _ 2
      (NewWriter "svc.proto" "api.example.com" "" "1.0" "a.ts" "protos" "tmpl")
      ⟨[ProtoElement.pkg "p", ProtoElement.service ⟨"S", none, []⟩]⟩ rfl rfl).1⟩

/-- C9: the configured path prefix (defaulted to "/twirp" when empty)
is stored on the Writer but never influences the walk outcome or any
part of the generated document: translating with any two configured
prefixes yields identical results, while the stored field itself does
hold the configured value. -/
theorem C9_path_prefix_no_influence
    (fs : String → String → Option ProtoFile) (rf : String → Option String)
    (en : String → String → List (String × String) → Option String)
    (fuel : Nat) (fn hn ver sdk pd td p1 p2 : String) :
    walkFile fs rf en fuel (NewWriter fn hn p1 ver sdk pd td) =
      walkFile fs rf en fuel (NewWriter fn hn p2 ver sdk pd td) ∧
    (NewWriter fn hn p1 ver sdk pd td).pathPrefixVal =
      (if p1 = "" then "/twirp" else p1) := by
  exact ⟨rfl, rfl⟩

end TwirpSwagger
